import Mathlib

/-!
Shallow embedding of the compass-navigator navigation engine.

The numeric type of the JavaScript source (`number`) is modelled by the real
numbers `ℝ`.  Each definition below is a direct translation of the
corresponding function of the repository:

* geodesy utilities (`calculateDistance`, `calculateBearing`,
  `normalizeAngle`, `angleDifference`, `toRadians`, `toDegrees`);
* the circular exponential angle filter (`AngleFilter`);
* the orientation fusion engine's state transition
  (`SensorService.processDeviceMotion`, `calibrate`) and listener fan-out;
* the navigation state aggregator's two reducers (`updateLocation`,
  `updateDeviceHeading`) over `NavigationData`.

JavaScript's `%` operator on numbers (truncated remainder) is modelled by
`jsMod`, and `Math.atan2` by `atan2` (the standard quadrant-corrected
arctangent with range `(-π, π]`, which is what `Math.atan2` computes for
non-zero arguments, and `atan2 0 0 = 0` as in JavaScript).
-/

open Real

/-- Truncation toward zero, the rounding used by the JavaScript `%` operator. -/
noncomputable def jsTrunc (x : ℝ) : ℤ :=
  if 0 ≤ x then ⌊x⌋ else ⌈x⌉

/-- JavaScript remainder `a % b` for `b > 0`: `a - b * trunc (a / b)`. -/
noncomputable def jsMod (a b : ℝ) : ℝ :=
  a - b * jsTrunc (a / b)

/-- Embedding of `Math.atan2(y, x)`. -/
noncomputable def atan2 (y x : ℝ) : ℝ :=
  if 0 < x then arctan (y / x)
  else if x < 0 then
    (if 0 ≤ y then arctan (y / x) + π else arctan (y / x) - π)
  else
    (if 0 < y then π / 2 else if y < 0 then -(π / 2) else 0)

/-- Source `toRadians` (src/unnamed/part_003): `degrees * (Math.PI / 180)`. -/
noncomputable def toRadians (degrees : ℝ) : ℝ :=
  degrees * (π / 180)

/-- Source `toDegrees` (src/unnamed/part_003): `radians * (180 / Math.PI)`. -/
noncomputable def toDegrees (radians : ℝ) : ℝ :=
  radians * (180 / π)

/-- Source `normalizeAngle` (src/unnamed/part_003): `angle % 360`, plus
`360` when the remainder is negative. -/
noncomputable def normalizeAngle (angle : ℝ) : ℝ :=
  let normalized := jsMod angle 360
  if normalized < 0 then normalized + 360 else normalized

/-- First `while` loop of source `angleDifference`:
`while (diff > 180) diff -= 360`. -/
noncomputable def reduceDown (diff : ℝ) : ℝ :=
  if h : 180 < diff then reduceDown (diff - 360) else diff
termination_by (⌈(diff - 180) / 360⌉).toNat
decreasing_by
  have h1 : (0 : ℝ) < (diff - 180) / 360 := by
    have : (0 : ℝ) < diff - 180 := by linarith
    positivity
  have h2 : 0 < ⌈(diff - 180) / 360⌉ := Int.ceil_pos.mpr h1
  have h3 : ⌈(diff - 360 - 180) / 360⌉ = ⌈(diff - 180) / 360⌉ - 1 := by
    rw [show (diff - 360 - 180) / 360 = (diff - 180) / 360 - 1 by ring]
    exact Int.ceil_sub_one _
  rw [h3]
  omega

/-- Second `while` loop of source `angleDifference`:
`while (diff < -180) diff += 360`. -/
noncomputable def reduceUp (diff : ℝ) : ℝ :=
  if h : diff < -180 then reduceUp (diff + 360) else diff
termination_by (⌈(-180 - diff) / 360⌉).toNat
decreasing_by
  have h1 : (0 : ℝ) < (-180 - diff) / 360 := by
    have : (0 : ℝ) < -180 - diff := by linarith
    positivity
  have h2 : 0 < ⌈(-180 - diff) / 360⌉ := Int.ceil_pos.mpr h1
  have h3 : ⌈(-180 - (diff + 360)) / 360⌉ = ⌈(-180 - diff) / 360⌉ - 1 := by
    rw [show (-180 - (diff + 360)) / 360 = (-180 - diff) / 360 - 1 by ring]
    exact Int.ceil_sub_one _
  rw [h3]
  omega

/-- Source `angleDifference` (src/unnamed/part_003): `diff = angle2 - angle1`
followed by the two wrap-around `while` loops. -/
noncomputable def angleDifference (angle1 angle2 : ℝ) : ℝ :=
  reduceUp (reduceDown (angle2 - angle1))

theorem reduceDown_le (d : ℝ) : reduceDown d ≤ 180 := by
  generalize hn : (⌈(d - 180) / 360⌉).toNat = n
  induction n generalizing d with
  | zero =>
    rw [reduceDown]
    split
    · next h =>
      exfalso
      have h1 : (0 : ℝ) < (d - 180) / 360 := by
        have : (0 : ℝ) < d - 180 := by linarith
        positivity
      have h2 : 0 < ⌈(d - 180) / 360⌉ := Int.ceil_pos.mpr h1
      omega
    · next h => linarith [not_lt.mp h]
  | succ n ih =>
    rw [reduceDown]
    split
    · next h =>
      apply ih
      have h1 : (0 : ℝ) < (d - 180) / 360 := by
        have : (0 : ℝ) < d - 180 := by linarith
        positivity
      have h2 : 0 < ⌈(d - 180) / 360⌉ := Int.ceil_pos.mpr h1
      have h3 : ⌈(d - 360 - 180) / 360⌉ = ⌈(d - 180) / 360⌉ - 1 := by
        rw [show (d - 360 - 180) / 360 = (d - 180) / 360 - 1 by ring]
        exact Int.ceil_sub_one _
      omega
    · next h => linarith [not_lt.mp h]

theorem reduceUp_ge (d : ℝ) : -180 ≤ reduceUp d := by
  generalize hn : (⌈(-180 - d) / 360⌉).toNat = n
  induction n generalizing d with
  | zero =>
    rw [reduceUp]
    split
    · next h =>
      exfalso
      have h1 : (0 : ℝ) < (-180 - d) / 360 := by
        have : (0 : ℝ) < -180 - d := by linarith
        positivity
      have h2 : 0 < ⌈(-180 - d) / 360⌉ := Int.ceil_pos.mpr h1
      omega
    · next h => linarith [not_lt.mp h]
  | succ n ih =>
    rw [reduceUp]
    split
    · next h =>
      apply ih
      have h1 : (0 : ℝ) < (-180 - d) / 360 := by
        have : (0 : ℝ) < -180 - d := by linarith
        positivity
      have h2 : 0 < ⌈(-180 - d) / 360⌉ := Int.ceil_pos.mpr h1
      have h3 : ⌈(-180 - (d + 360)) / 360⌉ = ⌈(-180 - d) / 360⌉ - 1 := by
        rw [show (-180 - (d + 360)) / 360 = (-180 - d) / 360 - 1 by ring]
        exact Int.ceil_sub_one _
      omega
    · next h => linarith [not_lt.mp h]

theorem reduceUp_le (d : ℝ) (hd : d ≤ 180) : reduceUp d ≤ 180 := by
  rw [reduceUp]
  split
  · next h => exact reduceUp_le (d + 360) (by linarith)
  · next h => exact hd
termination_by (⌈(-180 - d) / 360⌉).toNat
decreasing_by
  have h1 : (0 : ℝ) < (-180 - d) / 360 := by
    have : (0 : ℝ) < -180 - d := by linarith
    positivity
  have h2 : 0 < ⌈(-180 - d) / 360⌉ := Int.ceil_pos.mpr h1
  have h3 : ⌈(-180 - (d + 360)) / 360⌉ = ⌈(-180 - d) / 360⌉ - 1 := by
    rw [show (-180 - (d + 360)) / 360 = (-180 - d) / 360 - 1 by ring]
    exact Int.ceil_sub_one _
  rw [h3]
  omega

theorem angleDifference_mem (a b : ℝ) :
    -180 ≤ angleDifference a b ∧ angleDifference a b ≤ 180 :=
  ⟨reduceUp_ge _, reduceUp_le _ (reduceDown_le _)⟩

theorem angleDifference_350_10 : angleDifference (350 : ℝ) 10 = 20 := by
  unfold angleDifference
  rw [show (10 : ℝ) - 350 = -340 by norm_num]
  rw [reduceDown, dif_neg (by norm_num)]
  rw [reduceUp, dif_pos (by norm_num)]
  rw [show (-340 : ℝ) + 360 = 20 by norm_num]
  rw [reduceUp, dif_neg (by norm_num)]

theorem angleDifference_10_350 : angleDifference (10 : ℝ) 350 = -20 := by
  unfold angleDifference
  rw [show (350 : ℝ) - 10 = 340 by norm_num]
  rw [reduceDown, dif_pos (by norm_num)]
  rw [show (340 : ℝ) - 360 = -20 by norm_num]
  rw [reduceDown, dif_neg (by norm_num)]
  rw [reduceUp, dif_neg (by norm_num)]

theorem angleDifference_180_0 : angleDifference (180 : ℝ) 0 = -180 := by
  unfold angleDifference
  rw [show (0 : ℝ) - 180 = -180 by norm_num]
  rw [reduceDown, dif_neg (by norm_num)]
  rw [reduceUp, dif_neg (by norm_num)]

theorem jsMod_nonneg_of_nonneg (v : ℝ) (hv : 0 ≤ v) : 0 ≤ jsMod v 360 := by
  unfold jsMod jsTrunc
  rw [if_pos (by positivity)]
  have h := Int.floor_le (v / 360)
  nlinarith [h]

theorem jsMod_lt_of_nonneg (v : ℝ) (hv : 0 ≤ v) : jsMod v 360 < 360 := by
  unfold jsMod jsTrunc
  rw [if_pos (by positivity)]
  have h := Int.lt_floor_add_one (v / 360)
  nlinarith [h]

theorem jsMod_nonpos_of_neg (v : ℝ) (hv : v < 0) : jsMod v 360 ≤ 0 := by
  unfold jsMod jsTrunc
  rw [if_neg (by intro h; nlinarith)]
  have h := Int.le_ceil (v / 360)
  nlinarith [h]

theorem jsMod_gt_of_neg (v : ℝ) (hv : v < 0) : -360 < jsMod v 360 := by
  unfold jsMod jsTrunc
  rw [if_neg (by intro h; nlinarith)]
  have h := Int.ceil_lt_add_one (v / 360)
  nlinarith [h]

theorem jsMod_sub_int (v : ℝ) : ∃ k : ℤ, jsMod v 360 = v - 360 * k :=
  ⟨jsTrunc (v / 360), by unfold jsMod; ring⟩

theorem normalizeAngle_nonneg (x : ℝ) : 0 ≤ normalizeAngle x := by
  simp only [normalizeAngle]
  rcases lt_or_le x 0 with hx | hx
  · split
    · next h => linarith [jsMod_gt_of_neg x hx]
    · next h => linarith [not_lt.mp h]
  · split
    · next h => linarith [jsMod_nonneg_of_nonneg x hx]
    · next h => linarith [not_lt.mp h]

theorem normalizeAngle_lt (x : ℝ) : normalizeAngle x < 360 := by
  simp only [normalizeAngle]
  rcases lt_or_le x 0 with hx | hx
  · split
    · next h => linarith [jsMod_nonpos_of_neg x hx]
    · next h =>
      rcases lt_or_le (jsMod x 360) 0 with h2 | h2
      · exact absurd h2 h
      · linarith [jsMod_nonpos_of_neg x hx, not_lt.mp h]
  · split
    · next h => linarith [jsMod_nonneg_of_nonneg x hx]
    · next h => exact jsMod_lt_of_nonneg x hx

theorem normalizeAngle_sub_int (x : ℝ) : ∃ k : ℤ, normalizeAngle x = x - 360 * k := by
  obtain ⟨k, hk⟩ := jsMod_sub_int x
  simp only [normalizeAngle]
  split
  · exact ⟨k - 1, by push_cast; linarith⟩
  · exact ⟨k, hk⟩

theorem normalizeAngle_eq_of_mem (x y : ℝ) (h0 : 0 ≤ y) (h1 : y < 360)
    (hk : ∃ k : ℤ, x - y = 360 * k) : normalizeAngle x = y := by
  obtain ⟨k, hk⟩ := hk
  obtain ⟨k', hk'⟩ := normalizeAngle_sub_int x
  have hb0 := normalizeAngle_nonneg x
  have hb1 := normalizeAngle_lt x
  have hdiff : normalizeAngle x - y = 360 * ((k : ℝ) - (k' : ℝ)) := by
    rw [hk']; linarith [hk]
  have hlt : ((k : ℝ) - (k' : ℝ)) < 1 := by nlinarith
  have hgt : (-1 : ℝ) < ((k : ℝ) - (k' : ℝ)) := by nlinarith
  have : k - k' = 0 := by
    have h1' : ((k - k' : ℤ) : ℝ) < 1 := by push_cast; linarith
    have h2' : (-1 : ℝ) < ((k - k' : ℤ) : ℝ) := by push_cast; linarith
    have h1'' : (k - k' : ℤ) < 1 := by exact_mod_cast h1'
    have h2'' : (-1 : ℤ) < k - k' := by exact_mod_cast h2'
    omega
  have hz : ((k : ℝ) - (k' : ℝ)) = 0 := by
    have : ((k - k' : ℤ) : ℝ) = 0 := by exact_mod_cast congrArg (fun n : ℤ => (n : ℝ)) this
    push_cast at this
    linarith
  rw [hz, mul_zero] at hdiff
  linarith

theorem normalizeAngle_add_int (x : ℝ) (k : ℤ) :
    normalizeAngle (x + 360 * k) = normalizeAngle x := by
  obtain ⟨k', hk'⟩ := normalizeAngle_sub_int x
  exact normalizeAngle_eq_of_mem _ _ (normalizeAngle_nonneg x) (normalizeAngle_lt x)
    ⟨k + k', by rw [hk']; push_cast; ring⟩

theorem jsMod_eq_normalizeAngle (v : ℝ) (hv : 0 ≤ v) : jsMod v 360 = normalizeAngle v := by
  simp only [normalizeAngle]
  rw [if_neg (not_lt.mpr (jsMod_nonneg_of_nonneg v hv))]

/-- C7: for every real input `x`, `normalizeAngle x` lies in `[0, 360)`;
`normalizeAngle (-10) = 350` and `normalizeAngle 725 = 5`. -/
theorem C7_normalizeAngle_range :
    (∀ x : ℝ, 0 ≤ normalizeAngle x ∧ normalizeAngle x < 360) ∧
    normalizeAngle (-10 : ℝ) = 350 ∧ normalizeAngle (725 : ℝ) = 5 := by
  refine ⟨fun x => ⟨normalizeAngle_nonneg x, normalizeAngle_lt x⟩, ?_, ?_⟩
  · exact normalizeAngle_eq_of_mem _ _ (by norm_num) (by norm_num) ⟨-1, by norm_num⟩
  · exact normalizeAngle_eq_of_mem _ _ (by norm_num) (by norm_num) ⟨2, by norm_num⟩

/-- C1 counterexample: `angleDifference 180 0` evaluates to exactly `-180`,
which is not in the half-open interval `(-180, 180]`. -/
theorem C1_counterexample :
    angleDifference (180 : ℝ) 0 = -180 ∧
    ¬(-180 < angleDifference (180 : ℝ) 0 ∧ angleDifference (180 : ℝ) 0 ≤ 180) := by
  have h := angleDifference_180_0
  exact ⟨h, by rw [h]; intro hc; exact absurd hc.1 (by norm_num)⟩

/-- C1 amended: for every pair of real angles, `angleDifference a b` lies in
the closed interval `[-180, 180]` (so its magnitude never exceeds `180`; the
endpoint `-180` is attainable), and `angleDifference 350 10 = 20`,
`angleDifference 10 350 = -20`. -/
theorem C1_amended_range :
    (∀ a b : ℝ, -180 ≤ angleDifference a b ∧ angleDifference a b ≤ 180) ∧
    angleDifference (350 : ℝ) 10 = 20 ∧ angleDifference (10 : ℝ) 350 = -20 :=
  ⟨angleDifference_mem, angleDifference_350_10, angleDifference_10_350⟩

theorem arctan_le_arctan {x y : ℝ} (h : x ≤ y) : arctan x ≤ arctan y :=
  arctan_strictMono.monotone h

theorem arctan_nonneg_of_nonneg {x : ℝ} (h : 0 ≤ x) : 0 ≤ arctan x := by
  rw [← arctan_zero]
  exact arctan_le_arctan h

theorem atan2_scale (k y x : ℝ) (hk : 0 < k) : atan2 (k * y) (k * x) = atan2 y x := by
  unfold atan2
  have hdiv : k * y / (k * x) = y / x := mul_div_mul_left y x (ne_of_gt hk)
  have hx1 : 0 < k * x ↔ 0 < x := mul_pos_iff_of_pos_left hk
  have hy1 : 0 ≤ k * y ↔ 0 ≤ y := mul_nonneg_iff_of_pos_left hk
  have hy2 : 0 < k * y ↔ 0 < y := mul_pos_iff_of_pos_left hk
  have hx2 : k * x < 0 ↔ x < 0 := by
    rw [← not_le, ← not_le]
    exact not_congr (mul_nonneg_iff_of_pos_left hk)
  have hy3 : k * y < 0 ↔ y < 0 := by
    rw [← not_le, ← not_le]
    exact not_congr (mul_nonneg_iff_of_pos_left hk)
  simp only [hdiv, hx1, hx2, hy1, hy2, hy3]

theorem atan2_sin_cos (θ : ℝ) (h1 : -π < θ) (h2 : θ ≤ π) : atan2 (sin θ) (cos θ) = θ := by
  unfold atan2
  rcases le_or_lt θ (-(π / 2)) with hle | hgt
  · rcases eq_or_lt_of_le hle with heq | hlt
    · subst heq
      rw [show Real.sin (-(π / 2)) = -1 by simp, show Real.cos (-(π / 2)) = 0 by simp]
      rw [if_neg (by norm_num), if_neg (by norm_num), if_neg (by norm_num),
        if_pos (by norm_num)]
    · have hcos : cos θ < 0 := by
        have h := cos_neg_of_pi_div_two_lt_of_lt (x := -θ) (by linarith) (by linarith)
        rwa [cos_neg] at h
      have hsin : sin θ < 0 := sin_neg_of_neg_of_neg_pi_lt (by linarith [pi_pos]) h1
      rw [if_neg (by linarith), if_pos hcos, if_neg (by linarith)]
      rw [← tan_eq_sin_div_cos]
      rw [show tan θ = tan (θ + π) from (tan_add_pi θ).symm]
      rw [arctan_tan (by linarith) (by linarith)]
      ring
  · by_cases hmid : θ < π / 2
    · have hcos : 0 < cos θ := cos_pos_of_mem_Ioo ⟨hgt, hmid⟩
      rw [if_pos hcos, ← tan_eq_sin_div_cos, arctan_tan (by linarith) hmid]
    · push_neg at hmid
      rcases eq_or_lt_of_le hmid with heq | hlt
      · rw [← heq]
        rw [Real.sin_pi_div_two, Real.cos_pi_div_two]
        rw [if_neg (by norm_num), if_neg (by norm_num), if_pos (by norm_num)]
      · have hcos : cos θ < 0 := cos_neg_of_pi_div_two_lt_of_lt hlt (by linarith [pi_pos])
        have hsin : 0 ≤ sin θ := sin_nonneg_of_nonneg_of_le_pi (by linarith [pi_pos]) h2
        rw [if_neg (by linarith), if_pos hcos, if_pos hsin]
        rw [← tan_eq_sin_div_cos]
        rw [show tan θ = tan (θ - π) from (tan_sub_pi θ).symm]
        rw [arctan_tan (by linarith) (by linarith)]
        ring

theorem atan2_sin_cos_wrap (θ : ℝ) :
    ∃ k : ℤ, atan2 (sin θ) (cos θ) = θ - 2 * π * k ∧
      -π < θ - 2 * π * k ∧ θ - 2 * π * k ≤ π := by
  have h2pi : (0 : ℝ) < 2 * π := by positivity
  set k := ⌈(θ - π) / (2 * π)⌉ with hkdef
  have hle : (θ - π) / (2 * π) ≤ (k : ℝ) := Int.le_ceil _
  have hlt : (k : ℝ) < (θ - π) / (2 * π) + 1 := Int.ceil_lt_add_one _
  have hub : θ - 2 * π * k ≤ π := by
    have h := (div_le_iff₀ h2pi).mp hle
    linarith
  have hlb : -π < θ - 2 * π * k := by
    have h' : ((k : ℝ) - 1) * (2 * π) < θ - π := (lt_div_iff₀ h2pi).mp (by linarith)
    linarith
  have hsin : sin (θ - 2 * π * k) = sin θ := by
    have h := Real.sin_add_int_mul_two_pi (θ - 2 * π * k) k
    rw [show θ - 2 * π * (k : ℝ) + (k : ℝ) * (2 * π) = θ by ring] at h
    exact h.symm
  have hcos : cos (θ - 2 * π * k) = cos θ := by
    have h := Real.cos_add_int_mul_two_pi (θ - 2 * π * k) k
    rw [show θ - 2 * π * (k : ℝ) + (k : ℝ) * (2 * π) = θ by ring] at h
    exact h.symm
  exact ⟨k, by rw [← hsin, ← hcos]; exact atan2_sin_cos _ hlb hub, hlb, hub⟩

/-- Coordinate pair as in src/unnamed/part_000 (`types.ts`). -/
structure Coordinates where
  latitude : ℝ
  longitude : ℝ

/-- Earth radius constant of src/unnamed/part_003. -/
def EARTH_RADIUS_METERS : ℝ := 6371000

/-- Source `calculateDistance` (src/unnamed/part_003): Haversine great-circle
distance, with `Math.atan2(Math.sqrt(a), Math.sqrt(1 - a))`. -/
noncomputable def calculateDistance (coord1 coord2 : Coordinates) : ℝ :=
  let lat1Rad := toRadians coord1.latitude
  let lat2Rad := toRadians coord2.latitude
  let deltaLatRad := toRadians (coord2.latitude - coord1.latitude)
  let deltaLonRad := toRadians (coord2.longitude - coord1.longitude)
  let a := sin (deltaLatRad / 2) * sin (deltaLatRad / 2) +
    cos lat1Rad * cos lat2Rad * sin (deltaLonRad / 2) * sin (deltaLonRad / 2)
  let c := 2 * atan2 (Real.sqrt a) (Real.sqrt (1 - a))
  EARTH_RADIUS_METERS * c

/-- Source `calculateBearing` (src/unnamed/part_003): initial great-circle
bearing, normalized at the end by `(bearingDeg + 360) % 360`. -/
noncomputable def calculateBearing (fromCoord toCoord : Coordinates) : ℝ :=
  let lat1Rad := toRadians fromCoord.latitude
  let lat2Rad := toRadians toCoord.latitude
  let deltaLonRad := toRadians (toCoord.longitude - fromCoord.longitude)
  let y := sin deltaLonRad * cos lat2Rad
  let x := cos lat1Rad * sin lat2Rad - sin lat1Rad * cos lat2Rad * cos deltaLonRad
  let bearingRad := atan2 y x
  let bearingDeg := toDegrees bearingRad
  jsMod (bearingDeg + 360) 360

theorem calculateDistance_self (a : Coordinates) : calculateDistance a a = 0 := by
  simp only [calculateDistance, toRadians, sub_self, zero_mul, zero_div, Real.sin_zero,
    mul_zero]
  norm_num [atan2, Real.sqrt_zero, Real.sqrt_one, Real.arctan_zero]

theorem calculateDistance_symm (a b : Coordinates) :
    calculateDistance a b = calculateDistance b a := by
  simp only [calculateDistance, toRadians]
  have h1 : (b.latitude - a.latitude) * (π / 180) / 2 =
      -((a.latitude - b.latitude) * (π / 180) / 2) := by ring
  have h2 : (b.longitude - a.longitude) * (π / 180) / 2 =
      -((a.longitude - b.longitude) * (π / 180) / 2) := by ring
  rw [h1, h2]
  simp only [Real.sin_neg]
  ring_nf

/-- C8: the Haversine distance of the source is symmetric, and the distance
from any coordinate to itself is exactly `0`. -/
theorem C8_distance_symm_zero :
    (∀ a b : Coordinates, calculateDistance a b = calculateDistance b a) ∧
    (∀ a : Coordinates, calculateDistance a a = 0) :=
  ⟨calculateDistance_symm, calculateDistance_self⟩

/-- Published navigation snapshot, as in src/unnamed/part_000 (`types.ts`). -/
structure NavigationData where
  userLocation : Option Coordinates
  targetLocation : Coordinates
  distance : Option ℝ
  bearing : Option ℝ
  deviceHeading : Option ℝ
  relativeAngle : Option ℝ

/-- Fixed target of src/unnamed/part_001 (`useNavigation`). -/
noncomputable def TARGET_LOCATION : Coordinates :=
  ⟨13.0453132, 77.5733936⟩

/-- Initial snapshot of the `useNavigation` hook (src/unnamed/part_001). -/
noncomputable def initialNavigationData : NavigationData :=
  { userLocation := none, targetLocation := TARGET_LOCATION, distance := none,
    bearing := none, deviceHeading := none, relativeAngle := none }

/-- Location-update reducer of src/unnamed/part_001 (`updateLocation`). -/
noncomputable def updateLocation (location : Coordinates) (prev : NavigationData) :
    NavigationData :=
  let distance := calculateDistance location TARGET_LOCATION
  let bearing := calculateBearing location TARGET_LOCATION
  let relativeAngle : Option ℝ :=
    match prev.deviceHeading with
    | some h => some (angleDifference h bearing)
    | none => none
  { prev with
    userLocation := some location
    distance := some distance
    bearing := some bearing
    relativeAngle := relativeAngle }

/-- Heading-update reducer of src/unnamed/part_001 (`updateDeviceHeading`). -/
noncomputable def updateDeviceHeading (heading : ℝ) (prev : NavigationData) :
    NavigationData :=
  let normalizedHeading := normalizeAngle heading
  let relativeAngle : Option ℝ :=
    match prev.bearing with
    | some b => some (angleDifference normalizedHeading b)
    | none => none
  { prev with
    deviceHeading := some normalizedHeading
    relativeAngle := relativeAngle }

/-- C3: applying the location reducer then the heading reducer yields the same
final `relativeAngle` as the opposite order, for every starting snapshot and
every pair of samples. -/
theorem C3_order_independence (prev : NavigationData) (location : Coordinates)
    (heading : ℝ) :
    (updateDeviceHeading heading (updateLocation location prev)).relativeAngle =
    (updateLocation location (updateDeviceHeading heading prev)).relativeAngle :=
  rfl

/-- Joint-nullity invariant of the `NavigationData` snapshot (spec §3). -/
def NavInvariant (d : NavigationData) : Prop :=
  (d.distance ≠ none ↔ d.userLocation ≠ none) ∧
  (d.bearing ≠ none ↔ d.userLocation ≠ none) ∧
  (d.relativeAngle ≠ none ↔ (d.bearing ≠ none ∧ d.deviceHeading ≠ none))

/-- Snapshots reachable from the initial snapshot by the two reducers. -/
inductive ReachableNav : NavigationData → Prop where
  | init : ReachableNav initialNavigationData
  | locStep : ∀ d l, ReachableNav d → ReachableNav (updateLocation l d)
  | headingStep : ∀ d h, ReachableNav d → ReachableNav (updateDeviceHeading h d)

/-- C4: the joint-nullity invariant holds for the initial snapshot and is
preserved by both reducers, hence holds for every reachable snapshot. -/
theorem C4_invariant_reachable (d : NavigationData) (hd : ReachableNav d) :
    NavInvariant d := by
  induction hd with
  | init => simp [NavInvariant, initialNavigationData]
  | locStep d l hd ih =>
    rcases d with ⟨ul, tl, di, be, dh, ra⟩
    cases dh <;> simp [NavInvariant, updateLocation]
  | headingStep d h hd ih =>
    rcases d with ⟨ul, tl, di, be, dh, ra⟩
    obtain ⟨ih1, ih2, ih3⟩ := ih
    cases be <;> simp_all [NavInvariant, updateDeviceHeading]

/-- C4 witness: the invariant holds at the initial snapshot. -/
theorem C4_witness : NavInvariant initialNavigationData :=
  C4_invariant_reachable initialNavigationData ReachableNav.init

/-- C9: the heading reducer carries `userLocation`, `targetLocation`,
`distance` and `bearing` forward unchanged; only `deviceHeading` (set to the
normalized sample) and `relativeAngle` are recomputed. -/
theorem C9_heading_frame (prev : NavigationData) (heading : ℝ) :
    (updateDeviceHeading heading prev).userLocation = prev.userLocation ∧
    (updateDeviceHeading heading prev).targetLocation = prev.targetLocation ∧
    (updateDeviceHeading heading prev).distance = prev.distance ∧
    (updateDeviceHeading heading prev).bearing = prev.bearing ∧
    (updateDeviceHeading heading prev).deviceHeading = some (normalizeAngle heading) :=
  ⟨rfl, rfl, rfl, rfl, rfl⟩

/-- Circular exponential moving-average filter state
(`AngleFilter` of src/src/utils/filters.ts). -/
structure AngleFilter where
  sinAvg : ℝ
  cosAvg : ℝ
  alpha : ℝ

/-- `AngleFilter` constructor: `alpha` clamped by
`Math.max(0, Math.min(1, alpha))`, accumulators start at `0`. -/
noncomputable def AngleFilter.create (alpha : ℝ) : AngleFilter :=
  { sinAvg := 0, cosAvg := 0, alpha := max 0 (min 1 alpha) }

/-- `AngleFilter.update` of the source: update both accumulators, reconstruct
the smoothed angle via `atan2`, convert to degrees and reduce by
`(smoothedDeg + 360) % 360`.  Returns the smoothed angle together with the
new filter state. -/
noncomputable def AngleFilter.update (f : AngleFilter) (angleDegrees : ℝ) :
    ℝ × AngleFilter :=
  let angleRad := angleDegrees * π / 180
  let sinAvg := f.alpha * Real.sin angleRad + (1 - f.alpha) * f.sinAvg
  let cosAvg := f.alpha * Real.cos angleRad + (1 - f.alpha) * f.cosAvg
  let smoothedRad := atan2 sinAvg cosAvg
  let smoothedDeg := smoothedRad * 180 / π
  (jsMod (smoothedDeg + 360) 360,
    { sinAvg := sinAvg, cosAvg := cosAvg, alpha := f.alpha })

/-- `AngleFilter.reset` of the source: clear both accumulators. -/
noncomputable def AngleFilter.reset (f : AngleFilter) : AngleFilter :=
  { f with
    sinAvg := 0
    cosAvg := 0 }

theorem create_alpha_le_one (a : ℝ) : (AngleFilter.create a).alpha ≤ 1 :=
  max_le zero_le_one (min_le_left 1 a)

theorem update_output_scaled (k θ : ℝ) (hk : 0 < k) :
    jsMod (atan2 (k * Real.sin (θ * π / 180)) (k * Real.cos (θ * π / 180))
        * 180 / π + 360) 360 = normalizeAngle θ := by
  obtain ⟨m, hm, hlb, hub⟩ := atan2_sin_cos_wrap (θ * π / 180)
  rw [atan2_scale k _ _ hk, hm]
  have h180pi : (0 : ℝ) < 180 / π := by positivity
  have hb1 : -180 < θ - 360 * m := by
    have h := mul_lt_mul_of_pos_right hlb h180pi
    rw [show -π * (180 / π) = -180 by field_simp; ring] at h
    rw [show (θ * π / 180 - 2 * π * m) * (180 / π) = θ - 360 * m by
      field_simp; ring] at h
    exact h
  have hb2 : θ - 360 * m ≤ 180 := by
    have h := mul_le_mul_of_nonneg_right hub h180pi.le
    rw [show π * (180 / π) = 180 by field_simp] at h
    rw [show (θ * π / 180 - 2 * π * m) * (180 / π) = θ - 360 * m by
      field_simp; ring] at h
    exact h
  rw [show (θ * π / 180 - 2 * π * m) * 180 / π = θ - 360 * m by field_simp; ring]
  rw [jsMod_eq_normalizeAngle _ (by linarith)]
  rw [show θ - 360 * (m : ℝ) + 360 = θ + 360 * ((-m + 1 : ℤ) : ℝ) by push_cast; ring]
  exact normalizeAngle_add_int θ (-m + 1)

theorem AngleFilter.update_of_zero (f : AngleFilter) (θ : ℝ) (hs : f.sinAvg = 0)
    (hc : f.cosAvg = 0) (ha : 0 < f.alpha) : (f.update θ).1 = normalizeAngle θ := by
  simp only [AngleFilter.update, hs, hc, mul_zero, add_zero]
  exact update_output_scaled f.alpha θ ha

/-- C10: with a (clamped) smoothing factor strictly greater than `0`, the
very first `AngleFilter.update` after construction, and likewise after
`reset`, returns exactly the input angle normalized to `[0, 360)`. -/
theorem C10_first_update_exact (a : ℝ) (f : AngleFilter) (θ : ℝ) :
    (0 < (AngleFilter.create a).alpha →
      ((AngleFilter.create a).update θ).1 = normalizeAngle θ) ∧
    (0 < f.alpha → ((f.reset).update θ).1 = normalizeAngle θ) :=
  ⟨fun h => AngleFilter.update_of_zero _ θ rfl rfl h,
   fun h => AngleFilter.update_of_zero _ θ rfl rfl h⟩

/-- C10 witness: with constructor argument `1` (clamped alpha `1 > 0`), the
first update on input `45` returns `normalizeAngle 45`. -/
theorem C10_witness :
    0 < (AngleFilter.create 1).alpha ∧
    ((AngleFilter.create 1).update 45).1 = normalizeAngle 45 := by
  have h : 0 < (AngleFilter.create 1).alpha := by norm_num [AngleFilter.create]
  exact ⟨h, (C10_first_update_exact 1 (AngleFilter.create 1) 45).1 h⟩

/-- Filter state after feeding the same angle `θ` to the filter `n` times. -/
noncomputable def runSame (f : AngleFilter) (θ : ℝ) : ℕ → AngleFilter
  | 0 => f
  | n + 1 => ((runSame f θ n).update θ).2

/-- The alternating 350°/10° input stream: sample `k` (0-based) is 350° for
even `k` and 10° for odd `k`. -/
noncomputable def altInput (k : ℕ) : ℝ :=
  if k % 2 = 0 then 350 else 10

/-- Filter state after feeding the first `n` alternating samples. -/
noncomputable def runAlt (f : AngleFilter) : ℕ → AngleFilter
  | 0 => f
  | n + 1 => ((runAlt f n).update (altInput n)).2

theorem runSame_state (a θ : ℝ) (n : ℕ) :
    runSame (AngleFilter.create a) θ n =
      { sinAvg := (1 - (1 - (AngleFilter.create a).alpha) ^ n) * Real.sin (θ * π / 180),
        cosAvg := (1 - (1 - (AngleFilter.create a).alpha) ^ n) * Real.cos (θ * π / 180),
        alpha := (AngleFilter.create a).alpha } := by
  induction n with
  | zero =>
    simp only [runSame, pow_zero, sub_self, zero_mul]
    rfl
  | succ n ih =>
    simp only [runSame, ih, AngleFilter.update, AngleFilter.mk.injEq]
    refine ⟨by ring, by ring, trivial⟩

theorem runSame_output (a θ : ℝ) (ha : 0 < (AngleFilter.create a).alpha) (n : ℕ) :
    ((runSame (AngleFilter.create a) θ n).update θ).1 = normalizeAngle θ := by
  have hle := create_alpha_le_one a
  rw [runSame_state]
  simp only [AngleFilter.update]
  have key : ∀ t : ℝ,
      (AngleFilter.create a).alpha * t +
        (1 - (AngleFilter.create a).alpha) *
          ((1 - (1 - (AngleFilter.create a).alpha) ^ n) * t) =
      (1 - (1 - (AngleFilter.create a).alpha) ^ (n + 1)) * t := by
    intro t
    ring
  rw [key (Real.sin (θ * π / 180)), key (Real.cos (θ * π / 180))]
  apply update_output_scaled
  have h1 : (1 - (AngleFilter.create a).alpha) ^ (n + 1) < 1 :=
    pow_lt_one₀ (by linarith) (by linarith) (Nat.succ_ne_zero n)
  linarith

theorem atan2_of_pos (y x : ℝ) (hx : 0 < x) : atan2 y x = arctan (y / x) := by
  unfold atan2
  rw [if_pos hx]

theorem jsMod_of_mem_0_360 (v : ℝ) (h0 : 0 ≤ v) (h1 : v < 360) : jsMod v 360 = v := by
  unfold jsMod jsTrunc
  rw [if_pos (by positivity)]
  have hf : ⌊v / 360⌋ = 0 := by
    rw [Int.floor_eq_zero_iff]
    constructor
    · positivity
    · exact (div_lt_one (by norm_num)).mpr h1
  rw [hf]
  push_cast
  ring

theorem jsMod_of_mem_360_720 (v : ℝ) (h0 : 360 ≤ v) (h1 : v < 720) :
    jsMod v 360 = v - 360 := by
  unfold jsMod jsTrunc
  rw [if_pos (div_nonneg (by linarith) (by norm_num))]
  have hf : ⌊v / 360⌋ = 1 := by
    rw [Int.floor_eq_iff]
    constructor
    · rw [le_div_iff₀ (by norm_num : (0:ℝ) < 360)]
      push_cast
      linarith
    · rw [div_lt_iff₀ (by norm_num : (0:ℝ) < 360)]
      push_cast
      linarith
  rw [hf]
  push_cast
  ring

/-- Sine of the 10° reference angle of the alternating stream. -/
noncomputable def sinTen : ℝ := Real.sin (10 * π / 180)

/-- Cosine of the 10° reference angle of the alternating stream. -/
noncomputable def cosTen : ℝ := Real.cos (10 * π / 180)

theorem sinTen_pos : 0 < sinTen :=
  sin_pos_of_pos_of_lt_pi (by positivity) (by nlinarith [pi_pos])

theorem cosTen_pos : 0 < cosTen :=
  cos_pos_of_mem_Ioo ⟨by nlinarith [pi_pos], by nlinarith [pi_pos]⟩

theorem sin_350_deg : Real.sin (350 * π / 180) = -sinTen := by
  rw [show (350 : ℝ) * π / 180 = -(10 * π / 180) + 2 * π by ring,
    Real.sin_add_two_pi, Real.sin_neg, sinTen]

theorem cos_350_deg : Real.cos (350 * π / 180) = cosTen := by
  rw [show (350 : ℝ) * π / 180 = -(10 * π / 180) + 2 * π by ring,
    Real.cos_add_two_pi, Real.cos_neg, cosTen]

theorem runAlt_inv (a : ℝ) (ha : 0 < (AngleFilter.create a).alpha) (n : ℕ) :
    (runAlt (AngleFilter.create a) n).alpha = (AngleFilter.create a).alpha ∧
    (runAlt (AngleFilter.create a) n).cosAvg =
      (1 - (1 - (AngleFilter.create a).alpha) ^ n) * cosTen ∧
    (if n % 2 = 0 then
        0 ≤ (runAlt (AngleFilter.create a) n).sinAvg ∧
        (runAlt (AngleFilter.create a) n).sinAvg ≤
          (AngleFilter.create a).alpha * sinTen /
            (1 + (1 - (AngleFilter.create a).alpha))
      else
        -((AngleFilter.create a).alpha * sinTen) ≤
          (runAlt (AngleFilter.create a) n).sinAvg ∧
        (runAlt (AngleFilter.create a) n).sinAvg ≤
          -((AngleFilter.create a).alpha * sinTen /
            (1 + (1 - (AngleFilter.create a).alpha)))) := by
  have hle := create_alpha_le_one a
  set α := (AngleFilter.create a).alpha with hαdef
  induction n with
  | zero =>
    refine ⟨rfl, ?_, ?_⟩
    · simp [runAlt, AngleFilter.create, hαdef]
    · rw [if_pos (by norm_num : 0 % 2 = 0)]
      constructor
      · simp [runAlt, AngleFilter.create, hαdef]
      · have h0 : (runAlt (AngleFilter.create a) 0).sinAvg = 0 := by
          simp [runAlt, AngleFilter.create, hαdef]
        rw [h0]
        exact div_nonneg (by nlinarith [sinTen_pos]) (by linarith)
  | succ n ih =>
    obtain ⟨ihα, ihc, ihs⟩ := ih
    have hstep : runAlt (AngleFilter.create a) (n + 1) =
        ((runAlt (AngleFilter.create a) n).update (altInput n)).2 := rfl
    have hD : α * sinTen / (1 + (1 - α)) * (1 + (1 - α)) = α * sinTen :=
      div_mul_cancel₀ _ (by linarith : (1 : ℝ) + (1 - α) ≠ 0)
    by_cases hpar : n % 2 = 0
    · have hin : altInput n = 350 := by simp [altInput, hpar]
      rw [if_pos hpar] at ihs
      obtain ⟨hs0, hs1⟩ := ihs
      have hsin' : Real.sin (altInput n * π / 180) = -sinTen := by
        rw [hin]; exact sin_350_deg
      have hcos' : Real.cos (altInput n * π / 180) = cosTen := by
        rw [hin]; exact cos_350_deg
      refine ⟨?_, ?_, ?_⟩
      · rw [hstep]
        simp only [AngleFilter.update]
        exact ihα
      · rw [hstep]
        simp only [AngleFilter.update]
        rw [hcos', ihc, ihα]
        ring
      · have hodd : ¬((n + 1) % 2 = 0) := by omega
        rw [if_neg hodd, hstep]
        simp only [AngleFilter.update]
        rw [hsin', ihα]
        constructor
        · have h1 : 0 ≤ (1 - α) * (runAlt (AngleFilter.create a) n).sinAvg :=
            mul_nonneg (by linarith) hs0
          linarith
        · have h2 : (1 - α) * (runAlt (AngleFilter.create a) n).sinAvg ≤
              (1 - α) * (α * sinTen / (1 + (1 - α))) :=
            mul_le_mul_of_nonneg_left hs1 (by linarith)
          linarith
    · have hin : altInput n = 10 := by simp [altInput, hpar]
      rw [if_neg hpar] at ihs
      obtain ⟨hs0, hs1⟩ := ihs
      have hsin' : Real.sin (altInput n * π / 180) = sinTen := by rw [hin]; rfl
      have hcos' : Real.cos (altInput n * π / 180) = cosTen := by rw [hin]; rfl
      refine ⟨?_, ?_, ?_⟩
      · rw [hstep]
        simp only [AngleFilter.update]
        exact ihα
      · rw [hstep]
        simp only [AngleFilter.update]
        rw [hcos', ihc, ihα]
        ring
      · have heven : (n + 1) % 2 = 0 := by omega
        rw [if_pos heven, hstep]
        simp only [AngleFilter.update]
        rw [hsin', ihα]
        constructor
        · have h1 : (1 - α) * (-(α * sinTen)) ≤
              (1 - α) * (runAlt (AngleFilter.create a) n).sinAvg :=
            mul_le_mul_of_nonneg_left hs0 (by linarith)
          have h2 : 0 ≤ α * (α * sinTen) :=
            mul_nonneg ha.le (mul_nonneg ha.le sinTen_pos.le)
          nlinarith
        · have h2 : (1 - α) * (runAlt (AngleFilter.create a) n).sinAvg ≤
              (1 - α) * (-(α * sinTen / (1 + (1 - α)))) :=
            mul_le_mul_of_nonneg_left hs1 (by linarith)
          linarith

theorem filter_output_hi (S C : ℝ) (hC : 0 < C) (hS0 : 0 ≤ S)
    (hSC : S * cosTen ≤ sinTen * C) :
    jsMod (atan2 S C * 180 / π + 360) 360 ∈ Set.Icc (0 : ℝ) 10 := by
  rw [atan2_of_pos S C hC]
  have hlo : 0 ≤ arctan (S / C) := arctan_nonneg_of_nonneg (div_nonneg hS0 hC.le)
  have hub : arctan (S / C) ≤ 10 * π / 180 := by
    have h1 : S / C ≤ sinTen / cosTen := by
      rw [div_le_div_iff₀ hC cosTen_pos]
      linarith
    calc arctan (S / C) ≤ arctan (sinTen / cosTen) := arctan_le_arctan h1
      _ = 10 * π / 180 := by
        rw [sinTen, cosTen, ← Real.tan_eq_sin_div_cos]
        exact arctan_tan (by nlinarith [pi_pos]) (by nlinarith [pi_pos])
  have hd0 : 0 ≤ arctan (S / C) * 180 / π :=
    div_nonneg (mul_nonneg hlo (by norm_num)) pi_pos.le
  have hd1 : arctan (S / C) * 180 / π ≤ 10 := by
    rw [div_le_iff₀ pi_pos]
    nlinarith [hub]
  rw [jsMod_of_mem_360_720 _ (by linarith) (by linarith)]
  rw [Set.mem_Icc]
  constructor <;> linarith

theorem filter_output_lo (S C : ℝ) (hC : 0 < C) (hS1 : S < 0)
    (hSC : -S * cosTen ≤ sinTen * C) :
    jsMod (atan2 S C * 180 / π + 360) 360 ∈ Set.Ico (350 : ℝ) 360 := by
  rw [atan2_of_pos S C hC]
  have hneg : arctan (S / C) < 0 := by
    have h1 : S / C < 0 := div_neg_of_neg_of_pos hS1 hC
    calc arctan (S / C) < arctan 0 := arctan_strictMono h1
      _ = 0 := arctan_zero
  have hge : -(10 * π / 180) ≤ arctan (S / C) := by
    have h1 : -(sinTen / cosTen) ≤ S / C := by
      rw [neg_le, ← neg_div]
      rw [div_le_div_iff₀ hC cosTen_pos]
      linarith
    calc -(10 * π / 180) = arctan (-(sinTen / cosTen)) := by
          rw [arctan_neg, sinTen, cosTen, ← Real.tan_eq_sin_div_cos,
            arctan_tan (by nlinarith [pi_pos]) (by nlinarith [pi_pos])]
      _ ≤ arctan (S / C) := arctan_le_arctan h1
  have hd0 : -10 ≤ arctan (S / C) * 180 / π := by
    rw [le_div_iff₀ pi_pos]
    nlinarith [hge]
  have hd1 : arctan (S / C) * 180 / π < 0 :=
    div_neg_of_neg_of_pos (by nlinarith [hneg]) pi_pos
  rw [jsMod_of_mem_0_360 _ (by linarith) (by linarith)]
  rw [Set.mem_Ico]
  constructor <;> linarith

theorem alt_output_mem (a : ℝ) (ha : 0 < (AngleFilter.create a).alpha) (n : ℕ) :
    ((runAlt (AngleFilter.create a) n).update (altInput n)).1 ∈
      Set.Icc (0 : ℝ) 10 ∪ Set.Ico (350 : ℝ) 360 := by
  have hle := create_alpha_le_one a
  obtain ⟨hα, hc, hs⟩ := runAlt_inv a ha (n + 1)
  set α := (AngleFilter.create a).alpha with hαdef
  have hfst : ((runAlt (AngleFilter.create a) n).update (altInput n)).1 =
      jsMod (atan2 (runAlt (AngleFilter.create a) (n + 1)).sinAvg
        (runAlt (AngleFilter.create a) (n + 1)).cosAvg * 180 / π + 360) 360 := rfl
  rw [hfst]
  have hpow : (1 - α) ^ (n + 1) ≤ 1 - α := by
    calc (1 - α) ^ (n + 1) = (1 - α) ^ n * (1 - α) := pow_succ _ _
      _ ≤ 1 * (1 - α) :=
        mul_le_mul_of_nonneg_right (pow_le_one₀ (by linarith) (by linarith)) (by linarith)
      _ = 1 - α := one_mul _
  have hCge : α * cosTen ≤ (runAlt (AngleFilter.create a) (n + 1)).cosAvg := by
    rw [hc]
    nlinarith [cosTen_pos]
  have hC : 0 < (runAlt (AngleFilter.create a) (n + 1)).cosAvg := by
    have := mul_pos ha cosTen_pos
    linarith
  by_cases hpar : (n + 1) % 2 = 0
  · rw [if_pos hpar] at hs
    obtain ⟨hs0, hs1⟩ := hs
    refine Set.mem_union_left _ (filter_output_hi _ _ hC hs0 ?_)
    have hDle : α * sinTen / (1 + (1 - α)) ≤ α * sinTen :=
      div_le_self (by nlinarith [sinTen_pos]) (by linarith)
    have hS : (runAlt (AngleFilter.create a) (n + 1)).sinAvg ≤ α * sinTen :=
      le_trans hs1 hDle
    have t1 := mul_le_mul_of_nonneg_right hS cosTen_pos.le
    have t2 := mul_le_mul_of_nonneg_left hCge sinTen_pos.le
    nlinarith [t1, t2]
  · rw [if_neg hpar] at hs
    obtain ⟨hs0, hs1⟩ := hs
    have hDpos : 0 < α * sinTen / (1 + (1 - α)) :=
      div_pos (by nlinarith [sinTen_pos]) (by linarith)
    have hSneg : (runAlt (AngleFilter.create a) (n + 1)).sinAvg < 0 :=
      lt_of_le_of_lt hs1 (by linarith)
    refine Set.mem_union_right _ (filter_output_lo _ _ hC hSneg ?_)
    have hS : -(runAlt (AngleFilter.create a) (n + 1)).sinAvg ≤ α * sinTen := by
      linarith
    have t1 := mul_le_mul_of_nonneg_right hS cosTen_pos.le
    have t2 := mul_le_mul_of_nonneg_left hCge sinTen_pos.le
    nlinarith [t1, t2]

/-- C6: for the circular filter with clamped smoothing factor `> 0`,
(a) feeding the same angle repeatedly returns exactly that angle normalized
to `[0,360)` at every update (so the output has converged to it from the
first iteration on), and (b) feeding alternating 350°/10° inputs keeps every
output within 10° of 0° (in `[0,10] ∪ [350,360)`), never producing the 180°
linear-averaging wrap artifact. -/
theorem C6_filter_convergence (a : ℝ) (ha : 0 < (AngleFilter.create a).alpha) :
    (∀ θ : ℝ, ∀ n : ℕ,
      ((runSame (AngleFilter.create a) θ n).update θ).1 = normalizeAngle θ) ∧
    (∀ n : ℕ,
      ((runAlt (AngleFilter.create a) n).update (altInput n)).1 ∈
        Set.Icc (0 : ℝ) 10 ∪ Set.Ico (350 : ℝ) 360) :=
  ⟨fun θ n => runSame_output a θ ha n, fun n => alt_output_mem a ha n⟩

/-- C6 witness: with the source's constructor argument `0.2 = 1/5` (the
`headingFilter` of `SensorService`), the hypothesis holds and the two parts
apply at concrete inputs. -/
theorem C6_witness :
    0 < (AngleFilter.create (1 / 5)).alpha ∧
    ((runSame (AngleFilter.create (1 / 5)) 90 0).update 90).1 = normalizeAngle 90 ∧
    ((runAlt (AngleFilter.create (1 / 5)) 0).update (altInput 0)).1 ∈
      Set.Icc (0 : ℝ) 10 ∪ Set.Ico (350 : ℝ) 360 := by
  have h : 0 < (AngleFilter.create (1 / 5)).alpha := by
    norm_num [AngleFilter.create]
  exact ⟨h, (C6_filter_convergence (1 / 5) h).1 90 0,
    (C6_filter_convergence (1 / 5) h).2 0⟩

/-- Orientation fusion engine state (src/src/services/SensorService.ts).
The listener set is modelled separately (see `notifyListeners`), since
fan-out is effectful rather than part of the numeric state. -/
structure SensorService where
  headingFilter : AngleFilter
  currentHeading : ℝ
  currentPitch : ℝ
  currentRoll : ℝ
  isCalibrated : Bool
  calibrationOffset : ℝ

/-- Initial `SensorService` state: `headingFilter = new AngleFilter(0.2)`,
current values `0`, uncalibrated with offset `0`. -/
noncomputable def SensorService.initial : SensorService :=
  { headingFilter := AngleFilter.create (1 / 5)
    currentHeading := 0
    currentPitch := 0
    currentRoll := 0
    isCalibrated := false
    calibrationOffset := 0 }

/-- Fused-rotation sample (`data.rotation` of `DeviceMotion`), radians. -/
structure Rotation where
  alpha : ℝ
  beta : ℝ
  gamma : ℝ

/-- `SensorService.processDeviceMotion` state transition: convert `alpha` to
degrees, smooth through the circular filter (after `normalizeAngle`), add the
calibration offset, normalize, store as current heading; pitch/roll are
converted directly. -/
noncomputable def SensorService.processDeviceMotion (s : SensorService)
    (r : Rotation) : SensorService :=
  let heading0 := r.alpha * (180 / π)
  let res := s.headingFilter.update (normalizeAngle heading0)
  let heading := normalizeAngle (res.1 + s.calibrationOffset)
  { s with
    headingFilter := res.2
    currentHeading := heading
    currentPitch := r.beta * (180 / π)
    currentRoll := r.gamma * (180 / π) }

/-- `SensorService.calibrate(trueHeading)`:
`calibrationOffset = trueHeading - currentHeading`, sets the flag. -/
noncomputable def SensorService.calibrate (s : SensorService) (trueHeading : ℝ) :
    SensorService :=
  { s with
    calibrationOffset := trueHeading - s.currentHeading
    isCalibrated := true }

theorem normalizeAngle_zero : normalizeAngle 0 = 0 :=
  normalizeAngle_eq_of_mem 0 0 le_rfl (by norm_num) ⟨0, by norm_num⟩

/-- The `calibrate` composite behaviour: given that the repeated filter
update returns the same smoothed heading (the filter has converged on this
input), the heading right after `processDeviceMotion`, `calibrate T`,
`processDeviceMotion` with the same sample is `normalizeAngle (T - previous
calibration offset)`. -/
theorem calibrate_repeat_heading (s0 : SensorService) (T : ℝ) (r : Rotation)
    (hconv : ((SensorService.processDeviceMotion s0 r).headingFilter.update
        (normalizeAngle (r.alpha * (180 / π)))).1 =
      (s0.headingFilter.update (normalizeAngle (r.alpha * (180 / π)))).1) :
    (SensorService.processDeviceMotion
        ((SensorService.processDeviceMotion s0 r).calibrate T) r).currentHeading =
      normalizeAngle (T - s0.calibrationOffset) := by
  simp only [SensorService.processDeviceMotion, SensorService.calibrate] at hconv ⊢
  rw [hconv]
  obtain ⟨k, hk⟩ := normalizeAngle_sub_int
    ((s0.headingFilter.update (normalizeAngle (r.alpha * (180 / π)))).1 +
      s0.calibrationOffset)
  rw [hk]
  rw [show (s0.headingFilter.update (normalizeAngle (r.alpha * (180 / π)))).1 +
      (T - ((s0.headingFilter.update (normalizeAngle (r.alpha * (180 / π)))).1 +
        s0.calibrationOffset - 360 * (k : ℝ))) =
      T - s0.calibrationOffset + 360 * (k : ℝ) by ring]
  exact normalizeAngle_add_int _ k

/-- A fixed point of the circular filter: accumulators at `(sin 0, cos 0)`
with the source's `alpha = 0.2`; updating with input `0` returns `0` and
leaves the state unchanged. -/
theorem fixpoint_update :
    AngleFilter.update { sinAvg := 0, cosAvg := 1, alpha := 1 / 5 } 0 =
      (0, { sinAvg := 0, cosAvg := 1, alpha := 1 / 5 }) := by
  simp only [AngleFilter.update]
  rw [show (0 : ℝ) * π / 180 = 0 by ring, Real.sin_zero, Real.cos_zero]
  rw [show (1 / 5 : ℝ) * 0 + (1 - 1 / 5) * 0 = 0 by norm_num]
  rw [show (1 / 5 : ℝ) * 1 + (1 - 1 / 5) * 1 = 1 by norm_num]
  rw [atan2_of_pos 0 1 one_pos]
  rw [show (0 : ℝ) / 1 = 0 by norm_num, arctan_zero]
  rw [show (0 : ℝ) * 180 / π = 0 by ring]
  rw [show (0 : ℝ) + 360 = 360 by norm_num]
  rw [jsMod_of_mem_360_720 360 (by norm_num) (by norm_num)]
  norm_num

/-- The zero rotation sample. -/
noncomputable def zeroRotation : Rotation :=
  { alpha := 0, beta := 0, gamma := 0 }

/-- Demo state with a converged filter (fixed point at heading 0°) and a
prior nonzero calibration offset of 30°. -/
noncomputable def calibDemoState : SensorService :=
  { headingFilter := { sinAvg := 0, cosAvg := 1, alpha := 1 / 5 }
    currentHeading := 0
    currentPitch := 0
    currentRoll := 0
    isCalibrated := true
    calibrationOffset := 30 }

/-- Demo state with a converged filter and zero (uncalibrated) offset. -/
noncomputable def calibDemoState0 : SensorService :=
  { headingFilter := { sinAvg := 0, cosAvg := 1, alpha := 1 / 5 }
    currentHeading := 0
    currentPitch := 0
    currentRoll := 0
    isCalibrated := false
    calibrationOffset := 0 }

theorem demo_hconv (s : SensorService)
    (hf : s.headingFilter = { sinAvg := 0, cosAvg := 1, alpha := 1 / 5 }) :
    ((SensorService.processDeviceMotion s zeroRotation).headingFilter.update
        (normalizeAngle (zeroRotation.alpha * (180 / π)))).1 =
      (s.headingFilter.update (normalizeAngle (zeroRotation.alpha * (180 / π)))).1 := by
  have hz : normalizeAngle (zeroRotation.alpha * (180 / π)) = 0 := by
    rw [show zeroRotation.alpha * (180 / π) = 0 by
      simp [zeroRotation]]
    exact normalizeAngle_zero
  simp only [SensorService.processDeviceMotion, hz, hf, fixpoint_update]

/-- C2 counterexample: from a prior calibration offset of 30° with a
converged filter (smoothed heading 0°, displayed heading 30°), calling
`calibrate 50` and re-ingesting the same raw sample yields heading 20°, not
the claimed true heading 50° — recalibration from a nonzero prior offset
does not land on `T`. -/
theorem C2_counterexample :
    (SensorService.processDeviceMotion
        ((SensorService.processDeviceMotion calibDemoState zeroRotation).calibrate 50)
        zeroRotation).currentHeading ≠ 50 := by
  have h := calibrate_repeat_heading calibDemoState 50 zeroRotation
    (demo_hconv calibDemoState rfl)
  rw [h]
  rw [show (50 : ℝ) - calibDemoState.calibrationOffset = 20 by
    norm_num [calibDemoState]]
  rw [show normalizeAngle 20 = 20 from
    normalizeAngle_eq_of_mem 20 20 (by norm_num) (by norm_num) ⟨0, by norm_num⟩]
  norm_num

/-- C2 amended: `calibrate T` sets the offset to `T` minus the current
displayed heading (which is the post-offset heading, not the pre-offset
one); calling `calibrate` again overwrites rather than accumulates; and a
repeat ingest of the same raw sample with a converged filter yields
`normalizeAngle (T - previousOffset)` — equal to `T` exactly when the
previous offset is a multiple of 360° (in particular from the uncalibrated
state), but not in general. -/
theorem C2_amended_calibration (s0 : SensorService) (T T' : ℝ) (r : Rotation)
    (hconv : ((SensorService.processDeviceMotion s0 r).headingFilter.update
        (normalizeAngle (r.alpha * (180 / π)))).1 =
      (s0.headingFilter.update (normalizeAngle (r.alpha * (180 / π)))).1) :
    ((SensorService.processDeviceMotion s0 r).calibrate T).calibrationOffset =
      T - (SensorService.processDeviceMotion s0 r).currentHeading ∧
    ((s0.calibrate T').calibrate T).calibrationOffset =
      (s0.calibrate T).calibrationOffset ∧
    (SensorService.processDeviceMotion
        ((SensorService.processDeviceMotion s0 r).calibrate T) r).currentHeading =
      normalizeAngle (T - s0.calibrationOffset) :=
  ⟨rfl, rfl, calibrate_repeat_heading s0 T r hconv⟩

/-- C2 witness: from the uncalibrated converged demo state, the convergence
hypothesis holds and the amended theorem applies to `calibrate 50`. -/
theorem C2_witness :
    (((SensorService.processDeviceMotion calibDemoState0 zeroRotation).headingFilter.update
        (normalizeAngle (zeroRotation.alpha * (180 / π)))).1 =
      (calibDemoState0.headingFilter.update
        (normalizeAngle (zeroRotation.alpha * (180 / π)))).1) ∧
    (SensorService.processDeviceMotion
        ((SensorService.processDeviceMotion calibDemoState0 zeroRotation).calibrate 50)
        zeroRotation).currentHeading =
      normalizeAngle (50 - calibDemoState0.calibrationOffset) := by
  have hconv := demo_hconv calibDemoState0 rfl
  exact ⟨hconv, (C2_amended_calibration calibDemoState0 50 50 zeroRotation hconv).2.2⟩

/-- `notifyListeners` fan-out of `SensorService` (and the identical pattern
in `LocationService.startWatching`): `listeners.forEach(l => l(...))` with
JavaScript exception semantics — a throw aborts the iteration and propagates
to the caller; there is no try/catch in the source. -/
def notifyListeners {ε : Type} :
    List (ℝ → ℝ → ℝ → Except ε Unit) → ℝ → ℝ → ℝ → Except ε Unit
  | [], _, _, _ => Except.ok ()
  | l :: ls, h, p, r =>
    match l h p r with
    | Except.ok _ => notifyListeners ls h p r
    | Except.error e => Except.error e

/-- `processDeviceMotion` including its final `this.notifyListeners()` call:
all state mutations happen before fan-out, so the new state is produced
regardless of listener outcome, and the fan-out result (normal return or
escaped exception) is returned alongside. -/
noncomputable def processDeviceMotionNotify {ε : Type} (s : SensorService)
    (r : Rotation) (listeners : List (ℝ → ℝ → ℝ → Except ε Unit)) :
    SensorService × Except ε Unit :=
  let s' := SensorService.processDeviceMotion s r
  (s', notifyListeners listeners s'.currentHeading s'.currentPitch s'.currentRoll)

theorem notifyListeners_append_error {ε : Type} (pre post : List (ℝ → ℝ → ℝ → Except ε Unit))
    (bad : ℝ → ℝ → ℝ → Except ε Unit) (h p r : ℝ) (e : ε)
    (hpre : ∀ l ∈ pre, l h p r = Except.ok ())
    (hbad : bad h p r = Except.error e) :
    notifyListeners (pre ++ bad :: post) h p r = Except.error e := by
  induction pre with
  | nil => simp only [List.nil_append, notifyListeners, hbad]
  | cons l ls ih =>
    have hl : l h p r = Except.ok () := hpre l (List.mem_cons_self l ls)
    simp only [List.cons_append, notifyListeners, hl]
    exact ih fun l' hl' => hpre l' (List.mem_cons_of_mem l hl')

/-- C5 counterexample: with a single throwing subscriber, the ingest
operation does not return without error — the exception escapes
`notifyListeners` (there is no try/catch), contradicting the claim that the
ingest itself returns without error. -/
theorem C5_counterexample :
    (processDeviceMotionNotify SensorService.initial zeroRotation
        [fun _ _ _ => Except.error ()]).2 = Except.error () ∧
    (Except.error () : Except Unit Unit) ≠ Except.ok () := by
  exact ⟨rfl, by simp⟩

/-- Location tracker state (src/src/services/LocationService.ts); the
subscription handle and listener set are modelled separately, as for the
orientation engine. -/
structure LocationService where
  currentLocation : Option Coordinates

/-- Fan-out of `LocationService.startWatching` (lines 113-119):
`this.listeners.forEach((listener) => listener(this.currentLocation!))`,
again with JavaScript exception semantics and no try/catch. -/
def locNotifyListeners {ε : Type} :
    List (Coordinates → Except ε Unit) → Coordinates → Except ε Unit
  | [], _ => Except.ok ()
  | l :: ls, c =>
    match l c with
    | Except.ok _ => locNotifyListeners ls c
    | Except.error e => Except.error e

/-- The watch callback of `LocationService.startWatching`: stores the new
fix as `currentLocation` first, then fans out to the listeners; at that
point `this.currentLocation!` is exactly the new location.  The updated
state is produced before fan-out, so it is retained regardless of listener
outcome. -/
def LocationService.watchCallback {ε : Type} (s : LocationService)
    (newLocation : Coordinates) (listeners : List (Coordinates → Except ε Unit)) :
    LocationService × Except ε Unit :=
  let s' : LocationService := { s with currentLocation := some newLocation }
  (s', locNotifyListeners listeners newLocation)

theorem locNotifyListeners_append_error {ε : Type}
    (pre post : List (Coordinates → Except ε Unit))
    (bad : Coordinates → Except ε Unit) (c : Coordinates) (e : ε)
    (hpre : ∀ l ∈ pre, l c = Except.ok ())
    (hbad : bad c = Except.error e) :
    locNotifyListeners (pre ++ bad :: post) c = Except.error e := by
  induction pre with
  | nil => simp only [List.nil_append, locNotifyListeners, hbad]
  | cons l ls ih =>
    have hl : l c = Except.ok () := hpre l (List.mem_cons_self l ls)
    simp only [List.cons_append, locNotifyListeners, hl]
    exact ih fun l' hl' => hpre l' (List.mem_cons_of_mem l hl')

/-- C5 amended: on both ingest paths, if one subscriber throws during
fan-out the engine's last known state has already been updated and is
retained — the current heading of the orientation engine and the last-known
location of the location tracker (the mutations precede fan-out in both
sources) — and the subscribers after the throwing one are skipped (the
result does not depend on `post` / `lpost`); but the exception is
propagated to the caller rather than caught and logged, so the ingest does
not return without error. -/
theorem C5_amended_fanout {ε : Type} (s : SensorService) (r : Rotation)
    (pre post : List (ℝ → ℝ → ℝ → Except ε Unit))
    (bad : ℝ → ℝ → ℝ → Except ε Unit) (e : ε)
    (ls : LocationService) (newLocation : Coordinates)
    (lpre lpost : List (Coordinates → Except ε Unit))
    (lbad : Coordinates → Except ε Unit) (e' : ε)
    (hpre : ∀ l ∈ pre,
      l (SensorService.processDeviceMotion s r).currentHeading
        (SensorService.processDeviceMotion s r).currentPitch
        (SensorService.processDeviceMotion s r).currentRoll = Except.ok ())
    (hbad : bad (SensorService.processDeviceMotion s r).currentHeading
        (SensorService.processDeviceMotion s r).currentPitch
        (SensorService.processDeviceMotion s r).currentRoll = Except.error e)
    (hlpre : ∀ l ∈ lpre, l newLocation = Except.ok ())
    (hlbad : lbad newLocation = Except.error e') :
    (processDeviceMotionNotify s r (pre ++ bad :: post)).1 =
      SensorService.processDeviceMotion s r ∧
    (processDeviceMotionNotify s r (pre ++ bad :: post)).2 = Except.error e ∧
    (LocationService.watchCallback ls newLocation
        (lpre ++ lbad :: lpost)).1.currentLocation = some newLocation ∧
    (LocationService.watchCallback ls newLocation
        (lpre ++ lbad :: lpost)).2 = Except.error e' :=
  ⟨rfl, notifyListeners_append_error pre post bad _ _ _ e hpre hbad,
    rfl, locNotifyListeners_append_error lpre lpost lbad newLocation e' hlpre hlbad⟩

/-- C5 witness: concrete fan-outs on both paths, each with one succeeding
subscriber, one throwing subscriber and one skipped subscriber. -/
theorem C5_witness :
    (processDeviceMotionNotify SensorService.initial zeroRotation
        ([fun _ _ _ => Except.ok ()] ++ (fun _ _ _ => Except.error ()) ::
          [fun _ _ _ => Except.ok ()])).1 =
      SensorService.processDeviceMotion SensorService.initial zeroRotation ∧
    (processDeviceMotionNotify SensorService.initial zeroRotation
        ([fun _ _ _ => Except.ok ()] ++ (fun _ _ _ => Except.error ()) ::
          [fun _ _ _ => Except.ok ()])).2 = Except.error () ∧
    (LocationService.watchCallback { currentLocation := none } ⟨0, 0⟩
        ([fun _ => Except.ok ()] ++ (fun _ => Except.error ()) ::
          [fun _ => Except.ok ()])).1.currentLocation = some ⟨0, 0⟩ ∧
    (LocationService.watchCallback { currentLocation := none } ⟨0, 0⟩
        ([fun _ => Except.ok ()] ++ (fun _ => Except.error ()) ::
          [fun _ => Except.ok ()])).2 = Except.error () :=
  C5_amended_fanout SensorService.initial zeroRotation _ _ _ ()
    { currentLocation := none } ⟨0, 0⟩ _ _ _ ()
    (by intro l hl; simp at hl; subst hl; rfl) rfl
    (by intro l hl; simp at hl; subst hl; rfl) rfl
